import Mathlib

/-!
# Verification of the job-tracker record store (`job_tracker_app.py`)

A shallow embedding of the pandas-backed CSV layer of the application.

* A persisted file is a `CsvFile`: a header line and one list of string
  cells per row (this abstracts the byte-level CSV serialisation, which is
  injective on these fields, so equality of `CsvFile`s is byte-identity of
  the persisted output).
* An in-memory `pandas.DataFrame` is a `DataFrame`: a column list and rows
  of `Cell := Option String`, where `none` models a pandas `NaN` cell.
  `pd.read_csv` maps every default NA sentinel string (`""`, `"NaN"`,
  `"nan"`, `"NA"`, ...) to `NaN`; `DataFrame.to_csv` renders `NaN` as the
  empty field.  All cell values are modelled as strings (the application
  only ever stores free text; numeric dtype inference is not modelled).
-/

/-- The default NA sentinel strings recognised by `pandas.read_csv`
(its documented default `na_values`). -/
def naStrings : List String :=
  ["", "#N/A", "#N/A N/A", "#NA", "-1.#IND", "-1.#QNAN", "-NaN", "-nan",
   "1.#IND", "1.#QNAN", "<NA>", "N/A", "NA", "NULL", "NaN", "None",
   "n/a", "nan", "null"]

/-- One DataFrame cell: `none` is pandas `NaN`. -/
abbrev Cell := Option String

/-- Reading one CSV field, as `pd.read_csv` does: NA sentinels become `NaN`. -/
def parseCell (s : String) : Cell :=
  if s ∈ naStrings then none else some s

/-- Writing one cell, as `DataFrame.to_csv` does: `NaN` becomes the empty field. -/
def renderCell : Cell → String
  | none => ""
  | some s => s

/-- A persisted CSV file: header plus rows of raw string fields. -/
structure CsvFile where
  header : List String
  rows : List (List String)
deriving DecidableEq, Repr

/-- An in-memory `pandas.DataFrame` restricted to what the app uses. -/
structure DataFrame where
  cols : List String
  rows : List (List Cell)
deriving DecidableEq, Repr

/-- `pd.read_csv` on a parseable file. -/
def read_csv (f : CsvFile) : DataFrame :=
  ⟨f.header, f.rows.map (fun r => r.map parseCell)⟩

/-- `df.to_csv(path, index=False)`: the persisted output. -/
def to_csv (df : DataFrame) : CsvFile :=
  ⟨df.cols, df.rows.map (fun r => r.map renderCell)⟩

/-- The canonical column set `COLUMNS` of the application. -/
def COLUMNS : List String :=
  ["Company", "Job Title", "Location", "Salary (Est.)", "Job Posting Link",
   "Application Date", "Application Status", "Interview Stage",
   "Follow-Up Date", "Follow-Up Sent?", "Resume Optimized?",
   "Job Source", "Contact Name", "Notes"]

/-- State of the tracker file on disk: absent, existing but zero-byte
(`pd.read_csv` raises `EmptyDataError`), or parseable content. -/
inductive FileState where
  | absent
  | empty
  | content (f : CsvFile)
deriving DecidableEq, Repr

/-- The back-fill loop of `init_tracker`:
`for col in COLUMNS: if col not in df.columns: df[col] = ""`.
Adding a column appends it to the header and broadcasts the scalar `""`
(the Python string, i.e. `some ""`) to every existing row. -/
def addMissing (df : DataFrame) : DataFrame :=
  COLUMNS.foldl
    (fun d col =>
      if col ∈ d.cols then d
      else ⟨d.cols ++ [col], d.rows.map (fun r => r ++ [some ""])⟩)
    df

/-- `init_tracker(user_file)`: create a blank file for new users, otherwise
load, back-fill any missing canonical column with `""`, and persist.
Returns the persisted file. -/
def init_tracker : FileState → CsvFile
  | .absent => to_csv ⟨COLUMNS, []⟩
  | .empty => to_csv (addMissing ⟨COLUMNS, []⟩)
  | .content f => to_csv (addMissing (read_csv f))

/-- First index of a column name in a header (pandas column lookup). -/
def idxOf? (name : String) : List String → Option Nat
  | [] => none
  | c :: cs => if c = name then some 0 else (idxOf? name cs).map (· + 1)

/-- The cell of row `r` under column `name` of header `cols`
(`df.at[row, name]` read access); `NaN` when the column is absent. -/
def cellAt (cols : List String) (r : List Cell) (name : String) : Cell :=
  match idxOf? name cols with
  | some i => r.getD i none
  | none => none

/-- Overwrite the cell under column `name` of an existing row
(used by `.at`/`.loc` assignment on a present row). A missing column
leaves the row unchanged (the enlargement case is handled by `atSet`). -/
def setCellRow (cols : List String) (r : List Cell) (name : String) (v : Cell) :
    List Cell :=
  match idxOf? name cols with
  | some i => r.set i v
  | none => r

/-- The new-row dict built by `add_application` (Python dict, insertion
order = canonical order). -/
def new_row (company job_title location salary link app_date status
    interview_stage follow_up follow_up_sent resume_opt job_source
    contact_name notes : String) : List (String × String) :=
  [("Company", company), ("Job Title", job_title), ("Location", location),
   ("Salary (Est.)", salary), ("Job Posting Link", link),
   ("Application Date", app_date), ("Application Status", status),
   ("Interview Stage", interview_stage), ("Follow-Up Date", follow_up),
   ("Follow-Up Sent?", follow_up_sent), ("Resume Optimized?", resume_opt),
   ("Job Source", job_source), ("Contact Name", contact_name),
   ("Notes", notes)]

/-- `pd.concat([df, pd.DataFrame([nr])], ignore_index=True)`: columns are
aligned by name (the second frame's extra columns are appended in its
order), old rows get `NaN` under new columns, the appended row gets `NaN`
under columns absent from the dict. -/
def pdConcatRow (df : DataFrame) (nr : List (String × String)) : DataFrame :=
  let newCols := (nr.map Prod.fst).filter (fun c => decide (c ∉ df.cols))
  let cols' := df.cols ++ newCols
  ⟨cols',
   df.rows.map (fun r => r ++ List.replicate newCols.length none)
     ++ [cols'.map (fun c => nr.lookup c)]⟩

/-- `add_application(user_file, company, ..., notes)`: load, concat the
new-row dict, persist. -/
def add_application (f : CsvFile) (company job_title location salary link
    app_date status interview_stage follow_up follow_up_sent resume_opt
    job_source contact_name notes : String) : CsvFile :=
  to_csv (pdConcatRow (read_csv f)
    (new_row company job_title location salary link app_date status
      interview_stage follow_up follow_up_sent resume_opt job_source
      contact_name notes))

/-- Rows paired with their positional labels, starting at `start`
(`pd.read_csv` gives a `RangeIndex`, so labels are `0, 1, ...`). -/
def withLabels (start : Nat) : List (List Cell) → List (Nat × List Cell)
  | [] => []
  | r :: rs => (start, r) :: withLabels (start + 1) rs

/-- `df.at[label, col] = v` on labeled rows.  Pandas `_set_value` falls
back to `.loc` setting-with-enlargement when the label or column is
missing: a missing column is appended (all rows get `NaN`), and a missing
row label appends a new all-`NaN` row carrying that label.  When the label
is present, every row with that label has the cell overwritten. -/
def atSet (cols : List String) (rows : List (Nat × List Cell))
    (label : Nat) (col : String) (v : String) :
    List String × List (Nat × List Cell) :=
  let step := fun (cols' : List String) (rows' : List (Nat × List Cell)) =>
    if rows'.any (fun p => p.1 = label) then
      (cols', rows'.map (fun p =>
        if p.1 = label then (p.1, setCellRow cols' p.2 col (some v)) else p))
    else
      (cols', rows' ++
        [(label, setCellRow cols' (List.replicate cols'.length none) col (some v))])
  match idxOf? col cols with
  | some _ => step cols rows
  | none => step (cols ++ [col]) (rows.map (fun p => (p.1, p.2 ++ [none])))

/-- `edit_application(user_file, index, updated_row)`: load, run
`df.at[index, col] = val` for each item of the dict, persist. -/
def edit_application (f : CsvFile) (index : Nat)
    (updated_row : List (String × String)) : CsvFile :=
  let df := read_csv f
  let st := updated_row.foldl
    (fun s kv => atSet s.1 s.2 index kv.1 kv.2) (df.cols, withLabels 0 df.rows)
  to_csv ⟨st.1, st.2.map Prod.snd⟩

/-- The raw persisted field of row `r` under column `name` of a file with
header `cols` (`none` when the column or the field is absent). -/
def fieldAt (cols : List String) (r : List String) (name : String) :
    Option String :=
  match idxOf? name cols with
  | some i => r.get? i
  | none => none

/-- `series.astype(str)` on one cell: `NaN` becomes the string `"nan"`. -/
def cellToStr : Cell → String
  | none => "nan"
  | some s => s

/-- Does `s` start with the character list `pat`? -/
def startsWithChars : List Char → List Char → Bool
  | [], _ => true
  | _ :: _, [] => false
  | a :: as, b :: bs => a = b && startsWithChars as bs

/-- Does `s` contain `pat` as a contiguous sublist? -/
def charsContain (pat : List Char) : List Char → Bool
  | [] => pat.isEmpty
  | c :: cs => startsWithChars pat (c :: cs) || charsContain pat cs

/-- `str.contains(pat)` for a plain-text pattern (substring test). -/
def strContains (s pat : String) : Bool :=
  charsContain pat.toList s.toList

/-- `len(df[df[colName].astype(str).str.contains(pat, na=False)])`. -/
def countContains (df : DataFrame) (colName pat : String) : Nat :=
  (df.rows.filter (fun r => strContains (cellToStr (cellAt df.cols r colName)) pat)).length

/-- Python `f"{x:.1f}"` applied to the exact rational `num / total * 100`:
round to tenths, ties to even, then print with one decimal digit. -/
def fmtPct (num total : Nat) : String :=
  let t := num * 1000
  let q := t / total
  let r := t % total
  let tenths :=
    if 2 * r < total then q
    else if total < 2 * r then q + 1
    else if q % 2 = 0 then q else q + 1
  toString (tenths / 10) ++ "." ++ toString (tenths % 10) ++ "%"

/-- The dict returned by `get_stats`. -/
structure Stats where
  total : Nat
  interviews : Nat
  offers : Nat
  rejections : Nat
  optimized : Nat
  interviewRate : String
  offerRate : String
deriving DecidableEq, Repr

/-- `get_stats(user_file)`. -/
def get_stats (f : CsvFile) : Stats :=
  let df := read_csv f
  let total := df.rows.length
  let interviews := countContains df "Application Status" "Interview"
  let offers := countContains df "Application Status" "Offer"
  let rejected := countContains df "Application Status" "Rejected"
  let optimized := countContains df "Resume Optimized?" "Yes"
  { total := total, interviews := interviews, offers := offers,
    rejections := rejected, optimized := optimized,
    interviewRate := if 0 < total then fmtPct interviews total else "0%",
    offerRate := if 0 < total then fmtPct offers total else "0%" }

/-- Python truthiness of an environment lookup: `os.getenv` yields `None`
(absent) or a string; `not x` is true for `None` and for `""`. -/
def pyTruthy : Option String → Bool
  | none => false
  | some s => !(s = "")

/-- Observable effects of one `sync_to_github()` call.  The function never
touches the data file, so `wroteDataFile` is false on every path. -/
structure SyncOutcome where
  warned : Bool
  wroteMarker : Bool
  wroteDataFile : Bool
  committed : Bool
  pushed : Bool
deriving DecidableEq, Repr

/-- `sync_to_github()`: gate on the three environment values, then write
the marker, stage, and commit/push only when the working tree is dirty. -/
def sync_to_github (token username repo_name : Option String)
    (dirty : Bool) : SyncOutcome :=
  if !pyTruthy token || !pyTruthy username || !pyTruthy repo_name then
    { warned := true, wroteMarker := false, wroteDataFile := false,
      committed := false, pushed := false }
  else
    { warned := false, wroteMarker := true, wroteDataFile := false,
      committed := dirty, pushed := dirty }

/-- Header of the credential file. -/
def credCols : List String := ["User", "PasswordHash"]

/-- `load_user_passwords()`: empty frame when the file is absent. -/
def load_user_passwords : Option CsvFile → DataFrame
  | none => ⟨credCols, []⟩
  | some f => read_csv f

/-- `user in df["User"].values`. -/
def userPresent (df : DataFrame) (user : String) : Bool :=
  df.rows.any (fun r => cellAt df.cols r "User" = some user)

/-- `save_user_password(user, password)`, parametrised by the digest
function (`hashlib.sha256(...).hexdigest()` in the source): overwrite the
hash of every row whose `User` equals `user`, else concat a fresh row;
persist.  Returns the persisted credential file. -/
def save_user_password (hashFn : String → String) (file : Option CsvFile)
    (user password : String) : CsvFile :=
  let df := load_user_passwords file
  let df' :=
    if userPresent df user then
      ⟨df.cols, df.rows.map (fun r =>
        if cellAt df.cols r "User" = some user then
          setCellRow df.cols r "PasswordHash" (some (hashFn password))
        else r)⟩
    else
      pdConcatRow df [("User", user), ("PasswordHash", hashFn password)]
  to_csv df'

/-- `verify_password(user, password)`: `none` for an unknown user,
otherwise compare the first stored digest with `hashFn password`
(a `NaN` stored digest compares unequal to any string, as in Python). -/
def verify_password (hashFn : String → String) (file : Option CsvFile)
    (user password : String) : Option Bool :=
  let df := load_user_passwords file
  if userPresent df user then
    let row := (df.rows.find? (fun r => cellAt df.cols r "User" = some user)).getD []
    some (cellAt df.cols row "PasswordHash" = some (hashFn password))
  else none

/-- Rows of `df` whose `User` cell equals `u`. -/
def countUser (df : DataFrame) (u : String) : Nat :=
  (df.rows.filter (fun r => cellAt df.cols r "User" = some u)).length

/-- `pd.isna` on a scalar cell. -/
def pd_isna : Cell → Bool
  | none => true
  | some _ => false

/-- Python `str(value)` on a cell (`str(nan) = "nan"`). -/
def pyStr : Cell → String
  | none => "nan"
  | some s => s

/-- ASCII lower-casing of one character (the fragment of Python
`str.lower` exercised by the `"nan"` comparison in `safe_date`). -/
def lowerChar (c : Char) : Char :=
  if 'A' ≤ c ∧ c ≤ 'Z' then Char.ofNat (c.toNat + 32) else c

/-- Python `str.lower()` restricted to ASCII letters. -/
def strLower (s : String) : String :=
  String.mk (s.data.map lowerChar)

/-- `safe_date(value)`, parametrised by `pd.to_datetime` (`toDt`, with
`none` modelling a parse failure, caught by the bare `except`) and by
`datetime.now()` (`now`). -/
def safe_date {α : Type} (toDt : String → Option α) (now : α) (value : Cell) : α :=
  if pd_isna value || value = some "" || strLower (pyStr value) = "nan" then now
  else
    match toDt (pyStr value) with
    | some d => d
    | none => now

/-- A persisted field that survives the load/persist round trip unchanged:
either already the empty field or not an NA sentinel. -/
def stableStr (s : String) : Prop := s = "" ∨ s ∉ naStrings

/-- Every cell of the file is round-trip stable. -/
def normalizedCsv (f : CsvFile) : Prop :=
  ∀ r ∈ f.rows, ∀ s ∈ r, stableStr s

instance (s : String) : Decidable (stableStr s) :=
  inferInstanceAs (Decidable (s = "" ∨ s ∉ naStrings))

instance (f : CsvFile) : Decidable (normalizedCsv f) :=
  inferInstanceAs (Decidable (∀ r ∈ f.rows, ∀ s ∈ r, stableStr s))

/-- Structural well-formedness of a parseable CSV file: a non-empty,
duplicate-free header and rows aligned with it (the domain on which the
embedding matches `pandas.read_csv`, which mangles duplicate column names
and mis-parses ragged rows). -/
def WfCsv (f : CsvFile) : Prop :=
  f.header ≠ [] ∧ f.header.Nodup ∧ ∀ r ∈ f.rows, r.length = f.header.length

/-- Well-formedness of a tracker file state. -/
def WfFS : FileState → Prop
  | .content f => WfCsv f
  | _ => True

instance (f : CsvFile) : Decidable (WfCsv f) :=
  inferInstanceAs
    (Decidable (f.header ≠ [] ∧ f.header.Nodup ∧ ∀ r ∈ f.rows, r.length = f.header.length))

instance : (fs : FileState) → Decidable (WfFS fs)
  | .absent => inferInstanceAs (Decidable True)
  | .empty => inferInstanceAs (Decidable True)
  | .content f => inferInstanceAs (Decidable (WfCsv f))

/-- Well-formedness of the credential file state: absent, or a file with
the canonical two-column credential header and aligned rows. -/
def WfCred : Option CsvFile → Prop
  | none => True
  | some f => f.header = credCols ∧ ∀ r ∈ f.rows, r.length = 2

instance : (file : Option CsvFile) → Decidable (WfCred file)
  | none => inferInstanceAs (Decidable True)
  | some f =>
    inferInstanceAs (Decidable (f.header = credCols ∧ ∀ r ∈ f.rows, r.length = 2))

/-- The canonical columns absent from a header, in canonical order. -/
def missingCols (h : List String) : List String :=
  COLUMNS.filter (fun c => decide (c ∉ h))

/-- Successive in-place cell overwrites of one row (the effect of the
`edit_application` loop on the row holding the targeted label). -/
def rowUpd (cols : List String) (upd : List (String × String)) (r : List Cell) :
    List Cell :=
  upd.foldl (fun r' kv => setCellRow cols r' kv.1 (some kv.2)) r

/-! ## Generic list lemmas -/

theorem map_congr_mem {α β : Type} (f g : α → β) (l : List α)
    (h : ∀ x ∈ l, f x = g x) : l.map f = l.map g := by
  induction l with
  | nil => rfl
  | cons x xs ih =>
    simp only [List.map_cons, h x (List.mem_cons_self x xs),
      ih (fun y hy => h y (List.mem_cons_of_mem x hy))]

theorem getq_set_self {α : Type} (l : List α) (i : Nat) (a : α) (h : i < l.length) :
    (l.set i a).get? i = some a := by
  induction l generalizing i with
  | nil => simp at h
  | cons x xs ih =>
    cases i with
    | zero => rfl
    | succ j => simpa using ih j (by simpa using h)

theorem getq_set_ne {α : Type} (l : List α) (i j : Nat) (a : α) (h : i ≠ j) :
    (l.set i a).get? j = l.get? j := by
  induction l generalizing i j with
  | nil => simp
  | cons x xs ih =>
    cases i with
    | zero =>
      cases j with
      | zero => exact absurd rfl h
      | succ k => rfl
    | succ i' =>
      cases j with
      | zero => rfl
      | succ k => simpa using ih i' k (by omega)

theorem getD_set_ne {α : Type} (l : List α) (i j : Nat) (a d : α) (h : i ≠ j) :
    (l.set i a).getD j d = l.getD j d := by
  induction l generalizing i j with
  | nil => simp
  | cons x xs ih =>
    cases i with
    | zero =>
      cases j with
      | zero => exact absurd rfl h
      | succ k => rfl
    | succ i' =>
      cases j with
      | zero => rfl
      | succ k => simpa using ih i' k (by omega)

theorem getD_map_nil_stable {α β : Type} (g : List α → List β) (hg : g [] = [])
    (l : List (List α)) (j : Nat) : (l.map g).getD j [] = g (l.getD j []) := by
  induction l generalizing j with
  | nil => simp [hg]
  | cons x xs ih =>
    cases j with
    | zero => simp
    | succ k => simpa using ih k

theorem getD_mem {α : Type} (l : List α) (j : Nat) (d : α) (h : j < l.length) :
    l.getD j d ∈ l := by
  induction l generalizing j with
  | nil => simp at h
  | cons x xs ih =>
    cases j with
    | zero => simp
    | succ k =>
      exact List.mem_cons_of_mem x (ih k (by simpa using h))

theorem mem_of_getq {α : Type} (l : List α) (j : Nat) (a : α)
    (h : l.get? j = some a) : a ∈ l := by
  induction l generalizing j with
  | nil => simp at h
  | cons x xs ih =>
    cases j with
    | zero => simp at h; simp [h]
    | succ k => exact List.mem_cons_of_mem x (ih k (by simpa using h))

theorem filter_congr_mem {α : Type} (p q : α → Bool) (l : List α)
    (h : ∀ x ∈ l, p x = q x) : l.filter p = l.filter q := by
  induction l with
  | nil => rfl
  | cons x xs ih =>
    have hx := h x (List.mem_cons_self x xs)
    have ih' := ih (fun y hy => h y (List.mem_cons_of_mem x hy))
    by_cases hp : p x = true
    · rw [List.filter_cons_of_pos hp, List.filter_cons_of_pos (hx ▸ hp), ih']
    · have hq : ¬ q x = true := fun hq => hp (hx ▸ hq)
      rw [List.filter_cons_of_neg hp, List.filter_cons_of_neg hq, ih']

/-! ## Lemmas about `idxOf?` -/

theorem idxOf?_isSome_of_mem (name : String) (l : List String) (h : name ∈ l) :
    (idxOf? name l).isSome := by
  induction l with
  | nil => simp at h
  | cons c cs ih =>
    by_cases hc : c = name
    · simp [idxOf?, hc]
    · have : name ∈ cs := by
        rcases List.mem_cons.mp h with h1 | h1
        · exact absurd h1.symm hc
        · exact h1
      simp only [idxOf?, if_neg hc]
      rcases Option.isSome_iff_exists.mp (ih this) with ⟨i, hi⟩
      simp [hi]

theorem idxOf?_getq (name : String) (l : List String) (i : Nat)
    (h : idxOf? name l = some i) : l.get? i = some name := by
  induction l generalizing i with
  | nil => simp [idxOf?] at h
  | cons c cs ih =>
    by_cases hc : c = name
    · simp only [idxOf?, if_pos hc] at h
      cases h
      simpa using hc
    · simp only [idxOf?, if_neg hc] at h
      rcases Option.map_eq_some'.mp h with ⟨j, hj, hji⟩
      subst hji
      simpa using ih j hj

theorem idxOf?_lt_length (name : String) (l : List String) (i : Nat)
    (h : idxOf? name l = some i) : i < l.length :=
  List.get?_eq_some.mp (idxOf?_getq name l i h) |>.1

theorem idxOf?_inj (l : List String) (a b : String) (i : Nat)
    (ha : idxOf? a l = some i) (hb : idxOf? b l = some i) : a = b := by
  have h1 := idxOf?_getq a l i ha
  have h2 := idxOf?_getq b l i hb
  rw [h1] at h2
  exact (Option.some.injEq _ _ ▸ h2)

/-! ## Lemmas about cells and the load/persist round trip -/

theorem parse_render_parse (s : String) :
    parseCell (renderCell (parseCell s)) = parseCell s := by
  by_cases h : s ∈ naStrings
  · simp [parseCell, renderCell, h]
    decide
  · simp [parseCell, renderCell, h]

theorem render_parse_of_stable (s : String) (h : stableStr s) :
    renderCell (parseCell s) = s := by
  rcases h with h | h
  · subst h; decide
  · simp [parseCell, renderCell, h]

/-- Cells of the in-memory frame whose persisted form re-reads identically. -/
def stableCell (c : Cell) : Prop :=
  renderCell (parseCell (renderCell c)) = renderCell c

theorem stableCell_parse (s : String) : stableCell (parseCell s) := by
  by_cases h : s ∈ naStrings
  · simp [stableCell, parseCell, renderCell, h]
    decide
  · simp [stableCell, parseCell, renderCell, h]

theorem stableCell_empty : stableCell (some "") := by
  show renderCell (parseCell (renderCell (some ""))) = renderCell (some "")
  decide

/-! ## The back-fill loop of `init_tracker` -/

theorem foldAddCols_char (L : List String) (hnd : L.Nodup) :
    ∀ (h : List String) (rows : List (List Cell)),
    L.foldl
      (fun (d : DataFrame) (col : String) =>
        if col ∈ d.cols then d
        else ⟨d.cols ++ [col], d.rows.map (fun r => r ++ [some ""])⟩)
      (⟨h, rows⟩ : DataFrame)
    = (⟨h ++ L.filter (fun c => decide (c ∉ h)),
       rows.map (fun r =>
         r ++ List.replicate (L.filter (fun c => decide (c ∉ h))).length (some ""))⟩ :
       DataFrame) := by
  induction L with
  | nil =>
    intro h rows
    simp
  | cons c L' ih =>
    intro h rows
    have hcL' : c ∉ L' := (List.nodup_cons.mp hnd).1
    have hnd' : L'.Nodup := (List.nodup_cons.mp hnd).2
    by_cases hc : c ∈ h
    · have hdec : decide (c ∉ h) = false := by simp [hc]
      rw [List.foldl_cons, if_pos hc, ih hnd' h rows,
        List.filter_cons_of_neg (by simp [hdec])]
    · have hdec : decide (c ∉ h) = true := by simp [hc]
      have hfil : L'.filter (fun x => decide (x ∉ h ++ [c]))
          = L'.filter (fun x => decide (x ∉ h)) := by
        refine filter_congr_mem _ _ _ (fun x hx => ?_)
        have hxc : x ≠ c := fun hxc => hcL' (hxc ▸ hx)
        have : (x ∉ h ++ [c]) ↔ (x ∉ h) := by
          simp [List.mem_append, hxc]
        exact decide_eq_decide.mpr this
      have hcons : List.filter (fun x => decide (x ∉ h)) (c :: L')
          = c :: List.filter (fun x => decide (x ∉ h)) L' := by
        simp only [List.filter_cons, hdec, if_true]
      rw [List.foldl_cons, if_neg hc, ih hnd' (h ++ [c]) _, hcons]
      refine congrArg₂ DataFrame.mk ?_ ?_
      · rw [hfil, List.append_assoc, List.singleton_append]
      · rw [List.map_map]
        refine map_congr_mem _ _ _ (fun r _ => ?_)
        simp only [Function.comp_apply, hfil, List.append_assoc,
          List.singleton_append, List.length_cons, List.replicate_succ]

theorem addMissing_char (df : DataFrame) :
    addMissing df
    = ⟨df.cols ++ missingCols df.cols,
       df.rows.map (fun r =>
         r ++ List.replicate (missingCols df.cols).length (some ""))⟩ := by
  cases df with
  | mk cols rows => exact foldAddCols_char COLUMNS (by decide) cols rows

theorem missingCols_eq_nil (h : List String) (hall : ∀ c ∈ COLUMNS, c ∈ h) :
    missingCols h = [] := by
  simp only [missingCols, List.filter_eq_nil_iff]
  intro c hc
  simp [hall c hc]

theorem mem_addMissing_cols (df : DataFrame) (c : String) (hc : c ∈ COLUMNS) :
    c ∈ (addMissing df).cols := by
  rw [addMissing_char]
  by_cases hmem : c ∈ df.cols
  · exact List.mem_append_left _ hmem
  · refine List.mem_append_right _ ?_
    simp [missingCols, List.mem_filter, hc, hmem]

theorem addMissing_of_complete (df : DataFrame)
    (hall : ∀ c ∈ COLUMNS, c ∈ df.cols) : addMissing df = df := by
  rw [addMissing_char, missingCols_eq_nil df.cols hall]
  cases df with
  | mk cols rows =>
    simp

/-- Every cell of the frame `init_tracker` persists is round-trip stable. -/
theorem addMissing_read_stable (f : CsvFile) :
    ∀ r ∈ (addMissing (read_csv f)).rows, ∀ c ∈ r, stableCell c := by
  rw [addMissing_char]
  intro r hr c hc
  simp only [read_csv, List.map_map, List.mem_map] at hr
  rcases hr with ⟨r0, _, hr0⟩
  subst hr0
  simp only [Function.comp_apply] at hc
  rcases List.mem_append.mp hc with h1 | h1
  · rcases List.mem_map.mp h1 with ⟨s, _, hs⟩
    exact hs ▸ stableCell_parse s
  · rw [List.eq_of_mem_replicate h1]
    exact stableCell_empty

theorem to_read_to (df : DataFrame)
    (h : ∀ r ∈ df.rows, ∀ c ∈ r, stableCell c) :
    to_csv (read_csv (to_csv df)) = to_csv df := by
  cases df with
  | mk cols rows =>
    simp only [to_csv, read_csv, List.map_map]
    refine congrArg₂ CsvFile.mk rfl ?_
    refine map_congr_mem _ _ _ (fun r hr => ?_)
    simp only [Function.comp_apply, List.map_map]
    exact map_congr_mem _ _ _ (fun c hc => h r hr c hc)

theorem read_csv_cols (f : CsvFile) : (read_csv f).cols = f.header := rfl

theorem to_csv_header (df : DataFrame) : (to_csv df).header = df.cols := rfl

/-- Claim C2: invoking `init_tracker` twice in succession on the same path
produces byte-identical persisted output on the second invocation. -/
theorem init_tracker_idempotent (fs : FileState) (hwf : WfFS fs) :
    init_tracker (.content (init_tracker fs)) = init_tracker fs := by
  cases fs with
  | absent =>
    simp only [init_tracker]
    have hall : ∀ c ∈ COLUMNS,
        c ∈ (read_csv (to_csv (⟨COLUMNS, []⟩ : DataFrame))).cols := by
      simp only [read_csv_cols, to_csv_header]
      exact fun c hc => hc
    rw [addMissing_of_complete _ hall]
    rfl
  | empty =>
    simp only [init_tracker]
    rw [addMissing_of_complete (⟨COLUMNS, []⟩ : DataFrame) (fun c hc => hc)]
    have hall : ∀ c ∈ COLUMNS,
        c ∈ (read_csv (to_csv (⟨COLUMNS, []⟩ : DataFrame))).cols := by
      simp only [read_csv_cols, to_csv_header]
      exact fun c hc => hc
    rw [addMissing_of_complete _ hall]
    rfl
  | content f =>
    simp only [init_tracker]
    have hall : ∀ c ∈ COLUMNS,
        c ∈ (read_csv (to_csv (addMissing (read_csv f)))).cols := by
      simp only [read_csv_cols, to_csv_header]
      exact fun c hc => mem_addMissing_cols _ c hc
    rw [addMissing_of_complete _ hall]
    exact to_read_to _ (addMissing_read_stable f)

/-- Witness for claim C2 at a concrete one-row file missing most columns. -/
theorem init_tracker_idempotent_witness :
    WfFS (.content ⟨["Company"], [["hello"]]⟩) ∧
      init_tracker (.content (init_tracker (.content ⟨["Company"], [["hello"]]⟩)))
        = init_tracker (.content ⟨["Company"], [["hello"]]⟩) :=
  ⟨by decide, init_tracker_idempotent _ (by decide)⟩

/-- Claim C3 counterexample: a file whose header misses canonical columns
and whose `Company` cell is the literal text `"NaN"`.  The claim demands
the persisted result keep that cell as `"NaN"`, but `pd.read_csv` parses
it as missing and `to_csv` persists it as the empty field. -/
theorem init_tracker_backfill_cex :
    (init_tracker (.content ⟨["Company"], [["NaN"]]⟩)).rows
        = [List.replicate 14 ""]
      ∧ ("NaN" : String) ≠ "" := by decide

/-- Claim C3 (amended): on a well-formed file whose header misses one or
more canonical columns and none of whose cells is an unnormalised NA
sentinel, `init_tracker` appends exactly the missing canonical columns in
canonical order, fills them with the empty string on every existing row,
and leaves every existing cell byte-identical.  (NA-sentinel cells such as
`"NaN"` are instead rewritten to the empty field by the load/persist
round trip.) -/
theorem init_tracker_backfill (f : CsvFile) (hwf : WfCsv f)
    (hmiss : ∃ c ∈ COLUMNS, c ∉ f.header) (hnorm : normalizedCsv f) :
    init_tracker (.content f)
      = ⟨f.header ++ missingCols f.header,
         f.rows.map (fun r =>
           r ++ List.replicate (missingCols f.header).length "")⟩ := by
  show to_csv (addMissing (read_csv f)) = _
  rw [addMissing_char]
  simp only [to_csv, read_csv, List.map_map]
  refine congrArg₂ CsvFile.mk rfl ?_
  refine map_congr_mem _ _ _ (fun r hr => ?_)
  simp only [Function.comp_apply, List.map_append, List.map_map,
    List.map_replicate]
  refine congrArg₂ (· ++ ·) ?_ rfl
  have : ∀ s ∈ r, (renderCell ∘ parseCell) s = id s := fun s hs =>
    render_parse_of_stable s (hnorm r hr s hs)
  rw [map_congr_mem _ _ _ this, List.map_id]

/-- Witness for the amended claim C3. -/
theorem init_tracker_backfill_witness :
    WfCsv ⟨["Company"], [["hello"]]⟩ ∧
      (∃ c ∈ COLUMNS, c ∉ ["Company"]) ∧
      normalizedCsv ⟨["Company"], [["hello"]]⟩ ∧
      init_tracker (.content ⟨["Company"], [["hello"]]⟩)
        = ⟨["Company"] ++ missingCols ["Company"],
           [["hello"] ++ List.replicate (missingCols ["Company"]).length ""]⟩ :=
  ⟨by decide, by decide, by decide,
   init_tracker_backfill _ (by decide) (by decide) (by decide)⟩

/-! ## `add_application` -/

theorem parseCell_of_not_na (s : String) (h : s ∉ naStrings) :
    parseCell s = some s := by
  simp [parseCell, h]

theorem pdConcatRow_complete (df : DataFrame) (nr : List (String × String))
    (hsub : (nr.map Prod.fst).filter (fun c => decide (c ∉ df.cols)) = []) :
    pdConcatRow df nr
      = ⟨df.cols, df.rows ++ [df.cols.map (fun c => nr.lookup c)]⟩ := by
  simp only [pdConcatRow, hsub, List.length_nil, List.replicate_zero,
    List.append_nil, List.map_id']

/-- Claim C4: on a file with the canonical header, `add_application`
followed by a load yields the previously loaded rows, in order, with one
row appended whose canonical fields are exactly the supplied values
(`valid` field values: strings which are not pandas NA sentinels, so they
survive the persist/load round trip). -/
theorem add_application_spec (f : CsvFile)
    (company job_title location salary link app_date status interview_stage
     follow_up follow_up_sent resume_opt job_source contact_name notes : String)
    (hhdr : f.header = COLUMNS)
    (hvalid : ∀ v ∈ [company, job_title, location, salary, link, app_date,
      status, interview_stage, follow_up, follow_up_sent, resume_opt,
      job_source, contact_name, notes], v ∉ naStrings) :
    read_csv (add_application f company job_title location salary link
        app_date status interview_stage follow_up follow_up_sent resume_opt
        job_source contact_name notes)
      = ⟨COLUMNS, (read_csv f).rows ++
          [[some company, some job_title, some location, some salary,
            some link, some app_date, some status, some interview_stage,
            some follow_up, some follow_up_sent, some resume_opt,
            some job_source, some contact_name, some notes]]⟩ := by
  have hcols : (read_csv f).cols = COLUMNS := by rw [read_csv_cols, hhdr]
  have hkeys : (new_row company job_title location salary link app_date
      status interview_stage follow_up follow_up_sent resume_opt
      job_source contact_name notes).map Prod.fst = COLUMNS := rfl
  have hsub : ((new_row company job_title location salary link app_date
        status interview_stage follow_up follow_up_sent resume_opt
        job_source contact_name notes).map Prod.fst).filter
        (fun c => decide (c ∉ (read_csv f).cols)) = [] := by
    rw [hcols, hkeys]
    decide
  have hnr : COLUMNS.map (fun c => (new_row company job_title location
      salary link app_date status interview_stage follow_up follow_up_sent
      resume_opt job_source contact_name notes).lookup c)
      = [some company, some job_title, some location, some salary,
         some link, some app_date, some status, some interview_stage,
         some follow_up, some follow_up_sent, some resume_opt,
         some job_source, some contact_name, some notes] := rfl
  simp only [add_application]
  rw [pdConcatRow_complete _ _ hsub, hcols, hnr]
  simp only [read_csv, to_csv, List.map_map, List.map_append]
  refine congrArg₂ DataFrame.mk rfl (congrArg₂ (· ++ ·) ?_ ?_)
  · refine map_congr_mem _ _ _ (fun r0 _ => ?_)
    simp only [Function.comp_apply, List.map_map]
    exact map_congr_mem _ _ _ (fun s _ => parse_render_parse s)
  · simp only [List.map_cons, List.map_nil, Function.comp_apply, renderCell]
    rw [parseCell_of_not_na _ (hvalid company (by simp)),
      parseCell_of_not_na _ (hvalid job_title (by simp)),
      parseCell_of_not_na _ (hvalid location (by simp)),
      parseCell_of_not_na _ (hvalid salary (by simp)),
      parseCell_of_not_na _ (hvalid link (by simp)),
      parseCell_of_not_na _ (hvalid app_date (by simp)),
      parseCell_of_not_na _ (hvalid status (by simp)),
      parseCell_of_not_na _ (hvalid interview_stage (by simp)),
      parseCell_of_not_na _ (hvalid follow_up (by simp)),
      parseCell_of_not_na _ (hvalid follow_up_sent (by simp)),
      parseCell_of_not_na _ (hvalid resume_opt (by simp)),
      parseCell_of_not_na _ (hvalid job_source (by simp)),
      parseCell_of_not_na _ (hvalid contact_name (by simp)),
      parseCell_of_not_na _ (hvalid notes (by simp))]

/-! ## `edit_application`: list and label helpers -/

theorem set_getD_self {α : Type} (l : List α) (i : Nat) (a d : α)
    (h : i < l.length) : (l.set i a).getD i d = a := by
  induction l generalizing i with
  | nil => simp at h
  | cons x xs ih =>
    cases i with
    | zero => rfl
    | succ j => simpa using ih j (by simpa using h)

theorem set_getD_cancel {α : Type} (l : List α) (i : Nat) (d : α)
    (h : i < l.length) : l.set i (l.getD i d) = l := by
  induction l generalizing i with
  | nil => simp at h
  | cons x xs ih =>
    cases i with
    | zero => rfl
    | succ j => simpa using ih j (by simpa using h)

theorem getD_default_of_le {α : Type} (l : List α) (i : Nat) (d : α)
    (h : l.length ≤ i) : l.getD i d = d := by
  induction l generalizing i with
  | nil => simp
  | cons x xs ih =>
    cases i with
    | zero => simp at h
    | succ j => simpa using ih j (by simpa using h)

theorem getq_replicate {α : Type} (m n : Nat) (a : α) :
    (List.replicate m a).get? n = if n < m then some a else none := by
  induction m generalizing n with
  | zero => simp
  | succ k ih =>
    cases n with
    | zero => simp [List.replicate_succ]
    | succ j => simpa [List.replicate_succ, Nat.succ_lt_succ_iff] using ih j

theorem setCellRow_length (cols : List String) (r : List Cell) (name : String)
    (v : Cell) : (setCellRow cols r name v).length = r.length := by
  unfold setCellRow
  cases idxOf? name cols with
  | none => rfl
  | some i => simp

theorem rowUpd_length (cols : List String) (upd : List (String × String))
    (r : List Cell) : (rowUpd cols upd r).length = r.length := by
  induction upd generalizing r with
  | nil => rfl
  | cons kv upd' ih =>
    show (rowUpd cols upd' (setCellRow cols r kv.1 (some kv.2))).length = _
    rw [ih, setCellRow_length]

theorem rowUpd_get_ne (cols : List String) (upd : List (String × String))
    (r : List Cell) (j : Nat)
    (h : ∀ kv ∈ upd, idxOf? kv.1 cols ≠ some j) :
    (rowUpd cols upd r).get? j = r.get? j := by
  induction upd generalizing r with
  | nil => rfl
  | cons kv upd' ih =>
    show (rowUpd cols upd' (setCellRow cols r kv.1 (some kv.2))).get? j = _
    rw [ih _ (fun kv' hkv' => h kv' (List.mem_cons_of_mem kv hkv'))]
    unfold setCellRow
    cases hidx : idxOf? kv.1 cols with
    | none => rfl
    | some m =>
      exact getq_set_ne r m j _ (fun hmj =>
        h kv (List.mem_cons_self kv upd') (hmj ▸ hidx))

theorem idxOf?_of_getq_nodup (cols : List String) (hnd : cols.Nodup)
    (j : Nat) (c : String) (h : cols.get? j = some c) :
    idxOf? c cols = some j := by
  induction cols generalizing j with
  | nil => simp at h
  | cons d ds ih =>
    cases j with
    | zero =>
      simp only [List.get?] at h
      cases h
      simp [idxOf?]
    | succ k =>
      simp only [List.get?] at h
      have hdds : d ∉ ds := (List.nodup_cons.mp hnd).1
      have hc : c ∈ ds := mem_of_getq ds k c h
      have hdc : d ≠ c := fun hdc => hdds (hdc ▸ hc)
      simp only [idxOf?, if_neg hdc, ih (List.nodup_cons.mp hnd).2 k h,
        Option.map_some']

theorem withLabels_map_snd (rs : List (List Cell)) :
    ∀ k : Nat, (withLabels k rs).map Prod.snd = rs := by
  induction rs with
  | nil => intro k; rfl
  | cons r rt ih => intro k; simp [withLabels, ih (k + 1)]

theorem withLabels_length (rs : List (List Cell)) :
    ∀ k : Nat, (withLabels k rs).length = rs.length := by
  induction rs with
  | nil => intro k; rfl
  | cons r rt ih => intro k; simp [withLabels, ih (k + 1)]

theorem withLabels_fst_lt (rs : List (List Cell)) :
    ∀ (k : Nat) (p : Nat × List Cell), p ∈ withLabels k rs →
      p.1 < k + rs.length := by
  induction rs with
  | nil => intro k p hp; simp [withLabels] at hp
  | cons r rt ih =>
    intro k p hp
    rcases List.mem_cons.mp hp with hp | hp
    · subst hp; simp
    · have := ih (k + 1) p hp
      simp only [List.length_cons]
      omega

theorem withLabels_fst_ge (rs : List (List Cell)) :
    ∀ (k : Nat) (p : Nat × List Cell), p ∈ withLabels k rs → k ≤ p.1 := by
  induction rs with
  | nil => intro k p hp; simp [withLabels] at hp
  | cons r rt ih =>
    intro k p hp
    rcases List.mem_cons.mp hp with hp | hp
    · subst hp; simp
    · have := ih (k + 1) p hp
      omega

theorem withLabels_any_self (rs : List (List Cell)) :
    ∀ (k i : Nat), i < rs.length →
      (withLabels k rs).any (fun p => decide (p.1 = k + i)) = true := by
  induction rs with
  | nil => intro k i hi; simp at hi
  | cons r rt ih =>
    intro k i hi
    cases i with
    | zero =>
      show ((k, r) :: withLabels (k + 1) rt).any (fun p => decide (p.1 = k + 0)) = true
      simp
    | succ j =>
      have := ih (k + 1) j (by simpa using hi)
      have harith : k + 1 + j = k + (j + 1) := by omega
      rw [harith] at this
      show ((k, r) :: withLabels (k + 1) rt).any (fun p => decide (p.1 = k + (j + 1))) = true
      simp only [List.any_cons, this, Bool.or_true]

theorem withLabels_any_ge (rs : List (List Cell)) (k i : Nat)
    (hge : k + rs.length ≤ i) :
    (withLabels k rs).any (fun p => decide (p.1 = i)) = false := by
  rw [List.any_eq_false]
  intro p hp
  have := withLabels_fst_lt rs k p hp
  simp only [decide_eq_true_eq]
  omega

theorem withLabels_setmap (g : List Cell → List Cell) (rs : List (List Cell)) :
    ∀ (k i : Nat), i < rs.length →
      (withLabels k rs).map
          (fun p => if p.1 = k + i then (p.1, g p.2) else p)
        = withLabels k (rs.set i (g (rs.getD i []))) := by
  induction rs with
  | nil => intro k i hi; simp at hi
  | cons r rt ih =>
    intro k i hi
    cases i with
    | zero =>
      simp only [withLabels, List.map_cons, Nat.add_zero, if_pos rfl,
        List.set_cons_zero, List.getD_cons_zero]
      refine congrArg₂ List.cons rfl ?_
      have hne : ∀ p ∈ withLabels (k + 1) rt,
          (if p.1 = k then ((p.1 : Nat), g p.2) else p) = p := by
        intro p hp
        have hge := withLabels_fst_ge rt (k + 1) p hp
        exact if_neg (by omega)
      rw [map_congr_mem _ _ _ hne, List.map_id']
    | succ j =>
      have harith : k + (j + 1) = (k + 1) + j := by omega
      simp only [withLabels, List.map_cons, harith]
      have hhead : ¬ (k = k + 1 + j) := by omega
      rw [if_neg hhead]
      refine congrArg₂ List.cons rfl ?_
      rw [ih (k + 1) j (by simpa using hi)]
      rfl

theorem withLabels_setmap_ge (g : List Cell → List Cell)
    (rs : List (List Cell)) (k i : Nat) (hge : k + rs.length ≤ i) :
    (withLabels k rs).map (fun p => if p.1 = i then (p.1, g p.2) else p)
      = withLabels k rs := by
  have hne : ∀ p ∈ withLabels k rs,
      (if p.1 = i then ((p.1 : Nat), g p.2) else p) = p := by
    intro p hp
    have := withLabels_fst_lt rs k p hp
    exact if_neg (by omega)
  rw [map_congr_mem _ _ _ hne, List.map_id']

/-- Witness for claim C4: appending a concrete application to a concrete
one-row canonical file. -/
theorem add_application_spec_witness :
    (⟨COLUMNS, [List.replicate 14 "x"]⟩ : CsvFile).header = COLUMNS ∧
      read_csv (add_application ⟨COLUMNS, [List.replicate 14 "x"]⟩ "Acme"
          "Engineer" "NYC" "100k" "url" "2024-01-02" "Applied" "Screening"
          "2024-02-03" "No" "Yes" "LinkedIn" "Ann" "note")
        = ⟨COLUMNS, (read_csv ⟨COLUMNS, [List.replicate 14 "x"]⟩).rows ++
            [[some "Acme", some "Engineer", some "NYC", some "100k",
              some "url", some "2024-01-02", some "Applied", some "Screening",
              some "2024-02-03", some "No", some "Yes", some "LinkedIn",
              some "Ann", some "note"]]⟩ :=
  ⟨rfl, add_application_spec _ _ _ _ _ _ _ _ _ _ _ _ _ _ _ rfl (by decide)⟩

/-! ## `edit_application` on a currently valid index -/

theorem atSet_valid (cols : List String) (rs : List (List Cell)) (i : Nat)
    (col v : String) (hcol : col ∈ cols) (hi : i < rs.length) :
    atSet cols (withLabels 0 rs) i col v
      = (cols, withLabels 0
          (rs.set i (setCellRow cols (rs.getD i []) col (some v)))) := by
  rcases Option.isSome_iff_exists.mp (idxOf?_isSome_of_mem col cols hcol)
    with ⟨j, hj⟩
  have hany := withLabels_any_self rs 0 i hi
  rw [Nat.zero_add] at hany
  have hmap := withLabels_setmap (fun r => setCellRow cols r col (some v)) rs 0 i hi
  rw [Nat.zero_add] at hmap
  simp only [atSet, hj, hany, if_true]
  rw [hmap]

theorem edit_fold_valid (cols : List String) (upd : List (String × String)) :
    ∀ (rs : List (List Cell)) (i : Nat),
      (∀ kv ∈ upd, kv.1 ∈ cols) → i < rs.length →
      upd.foldl (fun s kv => atSet s.1 s.2 i kv.1 kv.2) (cols, withLabels 0 rs)
        = (cols, withLabels 0 (rs.set i (rowUpd cols upd (rs.getD i [])))) := by
  induction upd with
  | nil =>
    intro rs i _ hi
    simp only [List.foldl_nil, rowUpd, List.foldl_nil, set_getD_cancel rs i [] hi]
  | cons kv upd' ih =>
    intro rs i hk hi
    simp only [List.foldl_cons]
    rw [atSet_valid cols rs i kv.1 kv.2 (hk kv (List.mem_cons_self kv upd')) hi]
    rw [ih (rs.set i (setCellRow cols (rs.getD i []) kv.1 (some kv.2))) i
      (fun kv' hkv' => hk kv' (List.mem_cons_of_mem kv hkv'))
      (by rw [List.length_set]; exact hi)]
    rw [set_getD_self rs i _ [] hi, List.set_set]
    rfl

theorem edit_application_char (f : CsvFile) (i : Nat)
    (upd : List (String × String)) (hk : ∀ kv ∈ upd, kv.1 ∈ f.header)
    (hi : i < f.rows.length) :
    edit_application f i upd
      = to_csv ⟨f.header,
          (f.rows.map (fun r => r.map parseCell)).set i
            (rowUpd f.header upd
              ((f.rows.map (fun r => r.map parseCell)).getD i []))⟩ := by
  simp only [edit_application, read_csv]
  rw [edit_fold_valid f.header upd (f.rows.map (fun r => r.map parseCell)) i hk
    (by rw [List.length_map]; exact hi)]
  simp only [withLabels_map_snd]

/-- Claim C5 counterexample: editing only the `Company` field of row 0
also rewrites row 1's `Notes` cell from the literal text `"NaN"` to the
empty field in the persisted result, because the full-file load/persist
round trip normalises NA sentinels.  The claim demands every other row be
unchanged. -/
theorem edit_application_frame_cex :
    (edit_application
        ⟨COLUMNS, [List.replicate 14 "A", List.replicate 13 "B" ++ ["NaN"]]⟩
        0 [("Company", "X")]).rows.getD 1 []
      ≠ List.replicate 13 "B" ++ ["NaN"] := by decide

/-- Claim C5 (amended): on a file with the canonical header whose cells
are all round-trip stable (no unnormalised NA sentinel), `edit_application`
at a currently valid positional index with canonical field names changes
only the named fields of the row at that index: the header is preserved,
the row count is preserved, every other row is byte-identical, and every
field of the edited row whose column is not named in the update keeps its
persisted value. -/
theorem edit_application_frame (f : CsvFile) (i : Nat)
    (upd : List (String × String))
    (hhdr : f.header = COLUMNS)
    (hk : ∀ kv ∈ upd, kv.1 ∈ COLUMNS)
    (hi : i < f.rows.length)
    (hnorm : normalizedCsv f) :
    (edit_application f i upd).header = COLUMNS
    ∧ (edit_application f i upd).rows.length = f.rows.length
    ∧ (∀ j, j ≠ i →
        (edit_application f i upd).rows.getD j [] = f.rows.getD j [])
    ∧ (∀ col ∈ COLUMNS, col ∉ upd.map Prod.fst →
        fieldAt COLUMNS ((edit_application f i upd).rows.getD i []) col
          = fieldAt COLUMNS (f.rows.getD i []) col) := by
  have hchar := edit_application_char f i upd (by rw [hhdr]; exact hk) hi
  rw [hhdr] at hchar
  rw [hchar]
  simp only [to_csv]
  refine ⟨trivial, ?_, ?_, ?_⟩
  · rw [List.length_map, List.length_set, List.length_map]
  · intro j hj
    rw [getD_map_nil_stable (fun r => r.map renderCell) rfl,
      getD_set_ne _ i j _ [] (Ne.symm hj),
      getD_map_nil_stable (fun r => r.map parseCell) rfl]
    by_cases hjlen : j < f.rows.length
    · rw [List.map_map]
      have hmem := getD_mem f.rows j [] hjlen
      exact Eq.trans
        (map_congr_mem (renderCell ∘ parseCell) (fun s => s) _
          (fun s hs => render_parse_of_stable s (hnorm _ hmem s hs)))
        (List.map_id' _)
    · rw [getD_default_of_le f.rows j [] (by omega)]
      rfl
  · intro col hcol hnotin
    rcases Option.isSome_iff_exists.mp (idxOf?_isSome_of_mem col COLUMNS hcol)
      with ⟨jc, hjc⟩
    have hrow : ((f.rows.map (fun r => r.map parseCell)).set i
          (rowUpd COLUMNS upd
            ((f.rows.map (fun r => r.map parseCell)).getD i []))).getD i []
        = rowUpd COLUMNS upd
            ((f.rows.map (fun r => r.map parseCell)).getD i []) :=
      set_getD_self _ i _ [] (by rw [List.length_map]; exact hi)
    rw [getD_map_nil_stable (fun r => r.map renderCell) rfl, hrow]
    have hnoidx : ∀ kv ∈ upd, idxOf? kv.1 COLUMNS ≠ some jc := by
      intro kv hkv heq
      exact hnotin (List.mem_map.mpr ⟨kv, hkv,
        idxOf?_inj COLUMNS kv.1 col jc heq hjc⟩)
    simp only [fieldAt, hjc, List.get?_map,
      rowUpd_get_ne COLUMNS upd _ jc hnoidx,
      getD_map_nil_stable (fun r => r.map parseCell) rfl]
    cases hx : (f.rows.getD i []).get? jc with
    | none => rfl
    | some s =>
      have hsmem : s ∈ f.rows.getD i [] := mem_of_getq _ jc s hx
      have hrmem : f.rows.getD i [] ∈ f.rows := getD_mem f.rows i [] hi
      simp only [Option.map_some']
      rw [render_parse_of_stable s (hnorm _ hrmem s hsmem)]

/-- Witness for the amended claim C5: editing `Company` of row 0 in a
concrete normalized two-row file leaves row 1 byte-identical. -/
theorem edit_application_frame_witness :
    (edit_application
        ⟨COLUMNS, [List.replicate 14 "A", List.replicate 14 "B"]⟩
        0 [("Company", "X")]).rows.getD 1 []
      = (⟨COLUMNS, [List.replicate 14 "A", List.replicate 14 "B"]⟩ :
          CsvFile).rows.getD 1 [] :=
  (edit_application_frame
      ⟨COLUMNS, [List.replicate 14 "A", List.replicate 14 "B"]⟩ 0
      [("Company", "X")] rfl (by decide) (by decide) (by decide)).2.2.1
    1 (by decide)

/-! ## `edit_application` on an out-of-range index: pandas enlargement -/

theorem atSet_enlarge (cols : List String) (rs : List (List Cell)) (i : Nat)
    (col v : String) (hcol : col ∈ cols) (hge : rs.length ≤ i) :
    atSet cols (withLabels 0 rs) i col v
      = (cols, withLabels 0 rs ++
          [(i, setCellRow cols (List.replicate cols.length none) col (some v))]) := by
  rcases Option.isSome_iff_exists.mp (idxOf?_isSome_of_mem col cols hcol)
    with ⟨j, hj⟩
  have hany := withLabels_any_ge rs 0 i (by omega)
  simp only [atSet, hj, hany, Bool.false_eq_true, if_false]

theorem atSet_existing_append (cols : List String) (rs : List (List Cell))
    (i : Nat) (col v : String) (r : List Cell) (hcol : col ∈ cols)
    (hge : rs.length ≤ i) :
    atSet cols (withLabels 0 rs ++ [(i, r)]) i col v
      = (cols, withLabels 0 rs ++ [(i, setCellRow cols r col (some v))]) := by
  rcases Option.isSome_iff_exists.mp (idxOf?_isSome_of_mem col cols hcol)
    with ⟨j, hj⟩
  have hany : (withLabels 0 rs ++ [(i, r)]).any
      (fun p => decide (p.1 = i)) = true := by
    rw [List.any_append]
    simp
  simp only [atSet, hj, hany, if_true, List.map_append]
  rw [withLabels_setmap_ge (fun r' => setCellRow cols r' col (some v)) rs 0 i
    (by omega)]
  simp

theorem edit_fold_append (cols : List String) (upd' : List (String × String)) :
    ∀ (rs : List (List Cell)) (i : Nat) (r : List Cell),
      (∀ kv ∈ upd', kv.1 ∈ cols) → rs.length ≤ i →
      upd'.foldl (fun s kv => atSet s.1 s.2 i kv.1 kv.2)
          (cols, withLabels 0 rs ++ [(i, r)])
        = (cols, withLabels 0 rs ++ [(i, rowUpd cols upd' r)]) := by
  induction upd' with
  | nil =>
    intro rs i r _ _
    rfl
  | cons kv u ih =>
    intro rs i r hk hge
    simp only [List.foldl_cons]
    rw [atSet_existing_append cols rs i kv.1 kv.2 r
      (hk kv (List.mem_cons_self kv u)) hge]
    exact ih rs i _ (fun kv' hkv' => hk kv' (List.mem_cons_of_mem kv hkv')) hge

theorem edit_application_enlarge (f : CsvFile) (i : Nat)
    (kv : String × String) (upd' : List (String × String))
    (hk : ∀ kv' ∈ (kv :: upd'), kv'.1 ∈ f.header)
    (hge : f.rows.length ≤ i) :
    edit_application f i (kv :: upd')
      = to_csv ⟨f.header,
          f.rows.map (fun r => r.map parseCell)
            ++ [rowUpd f.header (kv :: upd')
                  (List.replicate f.header.length none)]⟩ := by
  simp only [edit_application, read_csv, List.foldl_cons]
  rw [atSet_enlarge f.header _ i kv.1 kv.2 (hk kv (List.mem_cons_self kv upd'))
    (by rw [List.length_map]; exact hge)]
  rw [edit_fold_append f.header upd' _ i _
    (fun kv' hkv' => hk kv' (List.mem_cons_of_mem kv hkv'))
    (by rw [List.length_map]; exact hge)]
  simp only [List.map_append, withLabels_map_snd, List.map_cons, List.map_nil]
  rfl

theorem rowUpd_lookup (cols : List String) (hndc : cols.Nodup) :
    ∀ (upd : List (String × String)) (r : List Cell) (j : Nat) (c : String),
      cols.get? j = some c →
      (upd.map Prod.fst).Nodup →
      (∀ kv ∈ upd, kv.1 ∈ cols) →
      r.length = cols.length →
      (rowUpd cols upd r).get? j
        = match upd.lookup c with
          | some v => some (some v)
          | none => r.get? j := by
  intro upd
  induction upd with
  | nil =>
    intro r j c _ _ _ _
    simp [rowUpd, List.lookup]
  | cons kv u ih =>
    intro r j c hcj hknd hkeys hlen
    obtain ⟨k, v⟩ := kv
    have hjlt : j < cols.length := (List.get?_eq_some.mp hcj).1
    show (rowUpd cols u (setCellRow cols r k (some v))).get? j = _
    by_cases hkc : k = c
    · subst hkc
      have hidx : idxOf? k cols = some j := idxOf?_of_getq_nodup cols hndc j k hcj
      have hset : setCellRow cols r k (some v) = r.set j (some v) := by
        simp [setCellRow, hidx]
      have hknd' : (k :: u.map Prod.fst).Nodup := by simpa using hknd
      have hknotin : k ∉ u.map Prod.fst := (List.nodup_cons.mp hknd').1
      have hnoidx : ∀ kv' ∈ u, idxOf? kv'.1 cols ≠ some j := by
        intro kv' hkv' heq
        exact hknotin (List.mem_map.mpr ⟨kv', hkv',
          idxOf?_inj cols kv'.1 k j heq hidx⟩)
      have hlk : ((k, v) :: u).lookup k = some v := by
        simp [List.lookup]
      rw [hlk, rowUpd_get_ne cols u _ j hnoidx, hset,
        getq_set_self r j (some v) (by omega)]
    · have hbeq : (c == k) = false := by
        simpa using Ne.symm hkc
      have hlk : ((k, v) :: u).lookup c = u.lookup c := by
        simp [List.lookup, hbeq]
      have hknd' : (k :: u.map Prod.fst).Nodup := by simpa using hknd
      rw [hlk]
      rw [ih (setCellRow cols r k (some v)) j c hcj
        (List.nodup_cons.mp hknd').2
        (fun kv' hkv' => hkeys kv' (List.mem_cons_of_mem _ hkv'))
        (by rw [setCellRow_length]; exact hlen)]
      have hget : (setCellRow cols r k (some v)).get? j = r.get? j := by
        unfold setCellRow
        cases hidx : idxOf? k cols with
        | none => rfl
        | some m =>
          refine getq_set_ne r m j (some v) (fun hmj => ?_)
          subst hmj
          have := idxOf?_getq k cols m hidx
          rw [hcj] at this
          have hck : c = k := by simpa using this
          exact hkc hck.symm
      rw [hget]

/-- Claim C1 counterexample: on a one-row canonical file, `edit_application`
at positional index 1 — not a currently valid position — does not fail: it
persists an enlarged row set with a second row (pandas label-based scalar
assignment enlarges on a missing label instead of raising). -/
theorem edit_application_out_of_range_cex :
    (edit_application ⟨COLUMNS, [List.replicate 14 "A"]⟩ 1
        [("Company", "X")]).rows.length = 2
    ∧ (⟨COLUMNS, [List.replicate 14 "A"]⟩ : CsvFile).rows.length = 1 := by
  decide

/-- Claim C1 (amended): `edit_application` with an out-of-range positional
index does not raise an index error; pandas `.at` setting falls back to
`.loc` enlargement, so one new row labelled by that index is appended and
persisted: its named fields hold the supplied values and every other
canonical field is empty. -/
theorem edit_application_out_of_range (f : CsvFile) (i : Nat)
    (upd : List (String × String))
    (hhdr : f.header = COLUMNS)
    (hk : ∀ kv ∈ upd, kv.1 ∈ COLUMNS)
    (hnd : (upd.map Prod.fst).Nodup)
    (hne : upd ≠ [])
    (hge : f.rows.length ≤ i) :
    (edit_application f i upd).rows.length = f.rows.length + 1
    ∧ (edit_application f i upd).rows.getLast?
        = some (COLUMNS.map (fun c => (upd.lookup c).getD "")) := by
  cases upd with
  | nil => exact absurd rfl hne
  | cons kv upd' =>
    have hchar := edit_application_enlarge f i kv upd'
      (by rw [hhdr]; exact hk) hge
    rw [hhdr] at hchar
    rw [hchar]
    constructor
    · simp [to_csv]
    · simp only [to_csv, List.map_append, List.map_cons, List.map_nil]
      rw [List.getLast?_concat]
      refine congrArg some ?_
      refine List.ext (fun n => ?_)
      rw [List.get?_map, List.get?_map]
      by_cases hn : n < COLUMNS.length
      · cases hc : COLUMNS.get? n with
        | none =>
          rw [List.get?_eq_none] at hc
          omega
        | some c =>
          rw [rowUpd_lookup COLUMNS (by decide) (kv :: upd') _ n c hc hnd hk
            (by rw [List.length_replicate])]
          cases hlu : (kv :: upd').lookup c with
          | some v => simp [hlu, renderCell]
          | none =>
            rw [getq_replicate COLUMNS.length n none, if_pos hn]
            simp [hlu, renderCell]
      · have h1 : (rowUpd COLUMNS (kv :: upd')
            (List.replicate COLUMNS.length none)).get? n = none := by
          rw [List.get?_eq_none, rowUpd_length, List.length_replicate]
          omega
        have h2 : COLUMNS.get? n = none := by
          rw [List.get?_eq_none]
          omega
        rw [h1, h2]
        rfl

/-- Witness for the amended claim C1 at a concrete one-row file and the
out-of-range index 5. -/
theorem edit_application_out_of_range_witness :
    (edit_application ⟨COLUMNS, [List.replicate 14 "A"]⟩ 5
        [("Company", "X")]).rows.length
        = (⟨COLUMNS, [List.replicate 14 "A"]⟩ : CsvFile).rows.length + 1
    ∧ (edit_application ⟨COLUMNS, [List.replicate 14 "A"]⟩ 5
        [("Company", "X")]).rows.getLast?
        = some (COLUMNS.map (fun c => (([("Company", "X")]).lookup c).getD "")) :=
  edit_application_out_of_range ⟨COLUMNS, [List.replicate 14 "A"]⟩ 5
    [("Company", "X")] rfl (by decide) (by decide) (by decide) (by decide)

/-! ## `get_stats` -/

/-- Claim C6: with zero rows both rates render as the literal `"0%"`
(no division), and with 4 rows of which 2 count as interviews the
interview rate renders as `"50.0%"` (one decimal place). -/
theorem get_stats_rates (f : CsvFile) :
    ((get_stats f).total = 0 →
      (get_stats f).interviewRate = "0%" ∧ (get_stats f).offerRate = "0%")
    ∧ ((get_stats f).total = 4 → (get_stats f).interviews = 2 →
      (get_stats f).interviewRate = "50.0%") := by
  have ht : (get_stats f).total = (read_csv f).rows.length := rfl
  have hi : (get_stats f).interviews
      = countContains (read_csv f) "Application Status" "Interview" := rfl
  have hir : (get_stats f).interviewRate
      = (if 0 < (read_csv f).rows.length then
          fmtPct (countContains (read_csv f) "Application Status" "Interview")
            (read_csv f).rows.length
        else "0%") := rfl
  have hor : (get_stats f).offerRate
      = (if 0 < (read_csv f).rows.length then
          fmtPct (countContains (read_csv f) "Application Status" "Offer")
            (read_csv f).rows.length
        else "0%") := rfl
  constructor
  · intro h0
    rw [ht] at h0
    rw [hir, hor, h0]
    simp
  · intro h4 h2
    rw [ht] at h4
    rw [hi] at h2
    rw [hir, h4, h2]
    decide

/-- Witness for claim C6: the empty store, and a concrete store with 4
applications of which exactly 2 have an `Application Status` containing
`"Interview"`. -/
theorem get_stats_rates_witness :
    (get_stats ⟨COLUMNS, []⟩).interviewRate = "0%"
    ∧ (get_stats ⟨COLUMNS, []⟩).offerRate = "0%"
    ∧ (get_stats ⟨COLUMNS,
        [List.replicate 6 "x" ++ ["Interview"] ++ List.replicate 7 "y",
         List.replicate 6 "x" ++ ["Interview"] ++ List.replicate 7 "y",
         List.replicate 6 "x" ++ ["Applied"] ++ List.replicate 7 "y",
         List.replicate 6 "x" ++ ["Rejected"] ++ List.replicate 7 "y"]⟩).interviewRate
      = "50.0%" :=
  ⟨((get_stats_rates ⟨COLUMNS, []⟩).1 (by decide)).1,
   ((get_stats_rates ⟨COLUMNS, []⟩).1 (by decide)).2,
   (get_stats_rates ⟨COLUMNS,
      [List.replicate 6 "x" ++ ["Interview"] ++ List.replicate 7 "y",
       List.replicate 6 "x" ++ ["Interview"] ++ List.replicate 7 "y",
       List.replicate 6 "x" ++ ["Applied"] ++ List.replicate 7 "y",
       List.replicate 6 "x" ++ ["Rejected"] ++ List.replicate 7 "y"]⟩).2
     (by decide) (by decide)⟩

/-! ## `sync_to_github` -/

/-- Claim C7: with any of the three environment values absent,
`sync_to_github` warns (`"disabled"`), writes no sync-marker file, writes
no data file (it never touches the data file on any path), commits
nothing, and pushes nothing, whatever the working-tree state. -/
theorem sync_to_github_disabled (token username repo_name : Option String)
    (dirty : Bool)
    (h : token = none ∨ username = none ∨ repo_name = none) :
    sync_to_github token username repo_name dirty
      = { warned := true, wroteMarker := false, wroteDataFile := false,
          committed := false, pushed := false } := by
  rcases h with h | h | h <;> subst h <;> simp [sync_to_github, pyTruthy]

/-- Witness for claim C7: the access token absent, the other two present,
with a dirty working tree. -/
theorem sync_to_github_disabled_witness :
    sync_to_github none (some "user") (some "repo") true
      = { warned := true, wroteMarker := false, wroteDataFile := false,
          committed := false, pushed := false } :=
  sync_to_github_disabled none (some "user") (some "repo") true (Or.inl rfl)

/-! ## `safe_date` -/

/-- Claim C9: `safe_date` always returns a value (the bare `except`
catches any parse failure): it returns `now` when the input is NA, the
empty string, `"nan"` case-insensitively, or unparseable, and the parsed
value otherwise. -/
theorem safe_date_spec {α : Type} (toDt : String → Option α) (now : α)
    (value : Cell) :
    ((pd_isna value = true ∨ value = some ""
        ∨ strLower (pyStr value) = "nan" ∨ toDt (pyStr value) = none) →
      safe_date toDt now value = now)
    ∧ (∀ s d, value = some s → s ≠ "" → strLower s ≠ "nan" → toDt s = some d →
        safe_date toDt now value = d) := by
  constructor
  · intro h
    cases value with
    | none => rfl
    | some s =>
      rcases h with h | h | h | h
      · simp [pd_isna] at h
      · have hs : s = "" := by simpa using h
        subst hs
        rfl
      · simp only [pyStr] at h
        simp [safe_date, pyStr, h]
      · simp only [pyStr] at h
        simp only [safe_date, pyStr, h]
        split <;> rfl
  · intro s d hv hs hnan hparse
    subst hv
    simp [safe_date, pd_isna, pyStr, hs, hnan, hparse]

/-- Witness for claim C9 with a concrete parser: the `"nan"` input and a
parseable date. -/
theorem safe_date_spec_witness :
    safe_date (fun s => if s = "2024-01-02" then some 7 else none) 0
        (some "nan") = 0
    ∧ safe_date (fun s => if s = "2024-01-02" then some 7 else none) 0
        (some "2024-01-02") = 7 :=
  ⟨(safe_date_spec _ 0 (some "nan")).1 (Or.inr (Or.inr (Or.inl (by decide)))),
   (safe_date_spec _ 0 (some "2024-01-02")).2 "2024-01-02" 7 rfl
     (by decide) (by decide) (by decide)⟩

/-! ## Credential store -/

theorem load_cols (file : Option CsvFile) (hwf : WfCred file) :
    (load_user_passwords file).cols = credCols := by
  cases file with
  | none => rfl
  | some g =>
    show (read_csv g).cols = credCols
    rw [read_csv_cols]
    exact hwf.1

theorem cellAt_user (r : List Cell) : cellAt credCols r "User" = r.getD 0 none :=
  rfl

theorem cellAt_hash (r : List Cell) :
    cellAt credCols r "PasswordHash" = r.getD 1 none := rfl

theorem setCellRow_hash (r : List Cell) (v : Cell) :
    setCellRow credCols r "PasswordHash" v = r.set 1 v := rfl

theorem parse_of_render_of_loaded (file : Option CsvFile) :
    ((load_user_passwords file).rows.map (fun r => r.map renderCell)).map
        (fun r => r.map parseCell)
      = (load_user_passwords file).rows := by
  cases file with
  | none => rfl
  | some g =>
    show ((read_csv g).rows.map (fun r => r.map renderCell)).map
        (fun r => r.map parseCell) = (read_csv g).rows
    simp only [read_csv, List.map_map]
    refine map_congr_mem _ _ _ (fun r _ => ?_)
    simp only [Function.comp_apply, List.map_map]
    exact map_congr_mem _ _ _ (fun s _ => parse_render_parse s)

theorem stable_getD (r0 : List String) :
    ∀ i : Nat,
      parseCell (renderCell ((r0.map parseCell).getD i none))
        = (r0.map parseCell).getD i none := by
  induction r0 with
  | nil =>
    intro i
    show parseCell (renderCell none) = none
    decide
  | cons s st ih =>
    intro i
    cases i with
    | zero => exact parse_render_parse s
    | succ j => exact ih j

theorem loaded_getD_stable (file : Option CsvFile) (r : List Cell)
    (hr : r ∈ (load_user_passwords file).rows) (i : Nat) :
    parseCell (renderCell (r.getD i none)) = r.getD i none := by
  cases file with
  | none => simp [load_user_passwords] at hr
  | some g =>
    rcases List.mem_map.mp (by simpa [load_user_passwords, read_csv] using hr)
      with ⟨r0, _, hr0⟩
    subst hr0
    exact stable_getD r0 i

theorem getD_map_cellfn (g : Cell → Cell) (hg : g none = none)
    (r : List Cell) : ∀ i : Nat, (r.map g).getD i none = g (r.getD i none) := by
  induction r with
  | nil => intro i; simp [hg]
  | cons c ct ih =>
    intro i
    cases i with
    | zero => rfl
    | succ j => exact ih j

theorem save_absent_char (hashFn : String → String) (file : Option CsvFile)
    (user pass : String) (hwf : WfCred file)
    (habs : userPresent (load_user_passwords file) user = false) :
    save_user_password hashFn file user pass
      = ⟨credCols,
         (load_user_passwords file).rows.map (fun r => r.map renderCell)
           ++ [[user, hashFn pass]]⟩ := by
  have hkeys : ([("User", user), ("PasswordHash", hashFn pass)]).map Prod.fst
      = credCols := rfl
  have hsub : (([("User", user), ("PasswordHash", hashFn pass)]).map
        Prod.fst).filter
        (fun c => decide (c ∉ (load_user_passwords file).cols)) = [] := by
    rw [load_cols file hwf, hkeys]
    decide
  have hnr : (load_user_passwords file).cols.map
        (fun c => ([("User", user), ("PasswordHash", hashFn pass)]).lookup c)
      = [some user, some (hashFn pass)] := by
    rw [load_cols file hwf]
    rfl
  simp only [save_user_password, habs, Bool.false_eq_true, if_false]
  rw [pdConcatRow_complete _ _ hsub, hnr]
  simp only [to_csv, load_cols file hwf, List.map_append]
  rfl

theorem read_save_absent (hashFn : String → String) (file : Option CsvFile)
    (user pass : String) (hwf : WfCred file)
    (habs : userPresent (load_user_passwords file) user = false)
    (huser : user ∉ naStrings) (hh : hashFn pass ∉ naStrings) :
    read_csv (save_user_password hashFn file user pass)
      = ⟨credCols, (load_user_passwords file).rows
          ++ [[some user, some (hashFn pass)]]⟩ := by
  rw [save_absent_char hashFn file user pass hwf habs]
  simp only [read_csv, List.map_append, parse_of_render_of_loaded]
  simp only [List.map_cons, List.map_nil, parseCell_of_not_na user huser,
    parseCell_of_not_na _ hh]

/-- Claim C8 counterexample: the user name `"nan"` is a pandas NA sentinel.
Registering it stores the row, but the stored name reads back as missing,
so immediately verifying with the same password returns the unknown-user
outcome `none` instead of `some true` (shown at the digest function
`fun s => s`; the store logic never inspects the digest function). -/
theorem credential_register_verify_cex :
    verify_password (fun s => s)
        (some (save_user_password (fun s => s) none "nan" "pw")) "nan" "pw"
      = none := by decide

/-- Claim C8 (amended): for every digest function and well-formed store,
registering a user name that is absent from the store and is not a pandas
NA sentinel (with a digest that is not a sentinel either — true of real
SHA-256 hex digests) and then verifying with the same password succeeds;
verifying with any password whose digest differs fails with `some false`;
and verifying a user name absent from the store returns `none`.  For an
NA-sentinel user name such as `"nan"` the stored name reads back as
missing and verification returns `none` even after registration. -/
theorem credential_register_verify (hashFn : String → String)
    (file : Option CsvFile) (user pass p' : String)
    (hwf : WfCred file)
    (huser : user ∉ naStrings)
    (hhash : hashFn pass ∉ naStrings)
    (habs : userPresent (load_user_passwords file) user = false) :
    verify_password hashFn (some (save_user_password hashFn file user pass))
        user pass = some true
    ∧ (hashFn p' ≠ hashFn pass →
        verify_password hashFn (some (save_user_password hashFn file user pass))
          user p' = some false)
    ∧ verify_password hashFn file user pass = none := by
  have hread := read_save_absent hashFn file user pass hwf habs huser hhash
  have habs' : (load_user_passwords file).rows.any
      (fun r => decide (cellAt credCols r "User" = some user)) = false := by
    have := habs
    unfold userPresent at this
    rwa [load_cols file hwf] at this
  have hnouser : ∀ r ∈ (load_user_passwords file).rows,
      ¬ (cellAt credCols r "User" = some user) := by
    intro r hr
    simpa using List.any_eq_false.mp habs' r hr
  have hverify : ∀ q : String,
      verify_password hashFn (some (save_user_password hashFn file user pass))
          user q
        = some (decide (some (hashFn pass) = some (hashFn q))) := by
    intro q
    have hpres : userPresent
        ⟨credCols, (load_user_passwords file).rows
          ++ [[some user, some (hashFn pass)]]⟩ user = true := by
      simp [userPresent, List.any_append, cellAt_user]
    have hfindnone : (load_user_passwords file).rows.find?
        (fun r => decide (cellAt credCols r "User" = some user)) = none :=
      List.find?_eq_none.mpr (fun r hr => by simpa using hnouser r hr)
    have hfind : ((load_user_passwords file).rows
          ++ [[some user, some (hashFn pass)]]).find?
          (fun r => decide (cellAt credCols r "User" = some user))
        = some [some user, some (hashFn pass)] := by
      rw [List.find?_append, hfindnone]
      simp [cellAt_user]
    have hload : ∀ g : CsvFile, load_user_passwords (some g) = read_csv g :=
      fun g => rfl
    unfold verify_password
    simp only [hload, hread, hpres, if_true, hfind, Option.getD_some,
      cellAt_hash]
    rfl
  refine ⟨?_, ?_, ?_⟩
  · rw [hverify pass]
    simp
  · intro hne
    rw [hverify p']
    simp [Ne.symm hne]
  · unfold verify_password
    simp only [habs, Bool.false_eq_true, if_false]

/-- Witness for the amended claim C8 at the empty store, digest function
`fun s => s`, user `"alice"`, password `"pw"` and wrong password `"other"`. -/
theorem credential_register_verify_witness :
    verify_password (fun s => s)
        (some (save_user_password (fun s => s) none "alice" "pw"))
        "alice" "pw" = some true
    ∧ verify_password (fun s => s)
        (some (save_user_password (fun s => s) none "alice" "pw"))
        "alice" "other" = some false
    ∧ verify_password (fun s => s) none "alice" "pw" = none :=
  have h := credential_register_verify (fun s => s) none "alice" "pw" "other"
    trivial (by decide) (by decide) (by decide)
  ⟨h.1, h.2.1 (by decide), h.2.2⟩

theorem length_filter_map_eq {α : Type} (p : α → Bool) (h : α → α)
    (l : List α) (hph : ∀ x ∈ l, p (h x) = p x) :
    ((l.map h).filter p).length = (l.filter p).length := by
  induction l with
  | nil => rfl
  | cons x xs ih =>
    have hx := hph x (List.mem_cons_self x xs)
    have ih' := ih (fun y hy => hph y (List.mem_cons_of_mem x hy))
    simp only [List.map_cons, List.filter_cons, hx]
    cases p x with
    | true => simp [ih']
    | false => simp [ih']

theorem parse_render_none : parseCell (renderCell none) = none := by decide

theorem filter_singleton_le {α : Type} (p : α → Bool) (a : α) :
    ((([a] : List α)).filter p).length ≤ 1 := by
  simp only [List.filter]
  cases p a <;> simp

/-- Claim C10: `save_user_password` preserves the invariant that the
credential store has at most one row per (readable) user name: when the
user is already present every matching row is overwritten in place and
the row count is unchanged; when absent exactly one row is appended. -/
theorem save_user_password_unique (hashFn : String → String)
    (file : Option CsvFile) (user pass : String)
    (hwf : WfCred file)
    (hinv : ∀ u : String, countUser (load_user_passwords file) u ≤ 1) :
    (∀ u : String,
      countUser (read_csv (save_user_password hashFn file user pass)) u ≤ 1)
    ∧ (userPresent (load_user_passwords file) user = true →
        (save_user_password hashFn file user pass).rows.length
          = (load_user_passwords file).rows.length)
    ∧ (userPresent (load_user_passwords file) user = false →
        (save_user_password hashFn file user pass).rows.length
          = (load_user_passwords file).rows.length + 1) := by
  have hc := load_cols file hwf
  by_cases hpres : userPresent (load_user_passwords file) user = true
  · have hsave : save_user_password hashFn file user pass
        = to_csv ⟨(load_user_passwords file).cols,
            (load_user_passwords file).rows.map (fun r =>
              if cellAt (load_user_passwords file).cols r "User" = some user
              then
                setCellRow (load_user_passwords file).cols r "PasswordHash"
                  (some (hashFn pass))
              else r)⟩ := by
      simp only [save_user_password, hpres, if_true]
    refine ⟨?_, ?_, ?_⟩
    · intro u
      rw [hsave]
      simp only [countUser, read_csv, to_csv, List.map_map, hc, cellAt_user]
      refine le_trans (le_of_eq (length_filter_map_eq _ _ _
        (fun r hr => ?_))) ?_
      · have hcell : (((if cellAt credCols r "User" = some user then
              setCellRow credCols r "PasswordHash" (some (hashFn pass))
            else r).map renderCell).map parseCell).getD 0 none
            = r.getD 0 none := by
          rw [List.map_map,
            getD_map_cellfn (parseCell ∘ renderCell) parse_render_none]
          by_cases hcond : cellAt credCols r "User" = some user
          · rw [if_pos hcond, setCellRow_hash,
              getD_set_ne r 1 0 _ none (by omega)]
            exact loaded_getD_stable file r hr 0
          · rw [if_neg hcond]
            exact loaded_getD_stable file r hr 0
        show decide ((((if cellAt credCols r "User" = some user then
              setCellRow credCols r "PasswordHash" (some (hashFn pass))
            else r).map renderCell).map parseCell).getD 0 none = some u)
          = decide (r.getD 0 none = some u)
        rw [hcell]
      · have h1 := hinv u
        simp only [countUser, hc, cellAt_user] at h1
        exact h1
    · intro _
      rw [hsave]
      simp [to_csv]
    · intro habs
      rw [hpres] at habs
      simp at habs
  · have habs : userPresent (load_user_passwords file) user = false := by
      revert hpres
      cases userPresent (load_user_passwords file) user <;> simp
    have hchar := save_absent_char hashFn file user pass hwf habs
    have hnouser : ∀ r ∈ (load_user_passwords file).rows,
        ¬ (r.getD 0 none = some user) := by
      intro r hr
      have h1 : (load_user_passwords file).rows.any
          (fun r => decide (cellAt credCols r "User" = some user)) = false := by
        have := habs
        unfold userPresent at this
        rwa [hc] at this
      simpa [cellAt_user] using List.any_eq_false.mp h1 r hr
    refine ⟨?_, ?_, ?_⟩
    · intro u
      rw [hchar]
      simp only [countUser, read_csv, List.map_append,
        parse_of_render_of_loaded, cellAt_user, List.map_cons, List.map_nil]
      rw [List.filter_append, List.length_append]
      by_cases hpu : parseCell user = some u
      · have huser_na : user ∉ naStrings := by
          intro hna
          unfold parseCell at hpu
          rw [if_pos hna] at hpu
          exact Option.noConfusion hpu
        have huu : u = user := by
          unfold parseCell at hpu
          rw [if_neg huser_na] at hpu
          have := Option.some.inj hpu
          exact this.symm
        subst huu
        have hz : ((load_user_passwords file).rows.filter
            (fun r => decide (r.getD 0 none = some u))).length = 0 := by
          have hfil : (load_user_passwords file).rows.filter
              (fun r => decide (r.getD 0 none = some u)) = [] :=
            List.filter_eq_nil_iff.mpr
              (fun r hr => by simpa using hnouser r hr)
          rw [hfil]
          rfl
        rw [hz]
        simpa using filter_singleton_le
          (fun r => decide (r.getD 0 none = some u))
          [parseCell u, parseCell (hashFn pass)]
      · have hz : (([[parseCell user, parseCell (hashFn pass)]] :
            List (List Cell)).filter
            (fun r => decide (r.getD 0 none = some u))).length = 0 := by
          simp [List.filter, hpu]
        rw [hz]
        have h1 := hinv u
        simp only [countUser, hc, cellAt_user] at h1
        simpa using h1
    · intro hp
      rw [hp] at habs
      simp at habs
    · intro _
      rw [hchar]
      simp [List.length_append, List.length_map]

/-- Witness for claim C10: the empty store (invariant holds trivially)
and one registration. -/
theorem save_user_password_unique_witness :
    (∀ u : String,
      countUser (read_csv (save_user_password (fun s => s) none "alice" "pw"))
        u ≤ 1)
    ∧ (userPresent (load_user_passwords none) "alice" = false →
        (save_user_password (fun s => s) none "alice" "pw").rows.length
          = (load_user_passwords none).rows.length + 1) :=
  have h := save_user_password_unique (fun s => s) none "alice" "pw" trivial
    (fun u => by simp [countUser, load_user_passwords])
  ⟨h.1, h.2.2⟩
